import Mathlib

/-!
Shallow embedding of the archival pipeline of the Wayback-Machine clone
(backend services: CrawlerService, AssetExtractor, AssetDownloader,
UrlRewriter, ArchiveService).  Pure functions of the TypeScript source are
translated into executable Lean definitions; the effectful parts (network
fetches, the filesystem, the on-disk metadata store) are made explicit as
oracle parameters and state that is threaded through the translated control
flow.  JavaScript runtime primitives that the source leans on (the WHATWG
URL constructor, node path helpers, Array.prototype.sort) are modelled by
small executable Lean functions, restricted to the input shapes the
pipeline feeds them; each such model is marked in its doc comment.
-/

/-- Boolean test that the list `s` starts with the list `pat`
(model of JavaScript String.startsWith, on character lists). -/
def listStartsWith : List Char → List Char → Bool
  | _, [] => true
  | [], _ :: _ => false
  | a :: as, b :: bs => a == b && listStartsWith as bs

/-- Boolean test that `pat` occurs as a contiguous substring of the list
(model of JavaScript String.includes, on character lists). -/
def listHasSub (pat : List Char) : List Char → Bool
  | [] => pat.isEmpty
  | c :: rest => listStartsWith (c :: rest) pat || listHasSub pat rest

/-- JavaScript String.includes on Lean strings. -/
def strContains (s pat : String) : Bool := listHasSub pat.data s.data

/-- JavaScript String.startsWith on Lean strings. -/
def strStartsWith (s pat : String) : Bool := listStartsWith s.data pat.data

/-- JavaScript String.endsWith on Lean strings. -/
def strEndsWith (s pat : String) : Bool :=
  listStartsWith s.data.reverse pat.data.reverse

/-- JavaScript String.toLowerCase (ASCII-faithful model). -/
def strToLower (s : String) : String := ⟨s.data.map Char.toLower⟩

/-- First `n` characters of a string (JavaScript String.substring(0,n)). -/
def strTake (s : String) (n : Nat) : String := ⟨s.data.take n⟩

/-- All but the first `n` characters of a string. -/
def strDropN (s : String) (n : Nat) : String := ⟨s.data.drop n⟩

/-- JavaScript String.split on a single-character separator
(keeps empty segments, never returns an empty list). -/
def splitOnChar (c : Char) : List Char → List (List Char)
  | [] => [[]]
  | a :: as =>
    match splitOnChar c as with
    | [] => [[]]
    | s :: ss => if a == c then [] :: s :: ss else (a :: s) :: ss

/-- JavaScript Array.prototype.join on a single-character separator. -/
def joinChar (c : Char) : List (List Char) → List Char
  | [] => []
  | [s] => s
  | s :: ss => s ++ c :: joinChar c ss

/-- Last element of a segment list (JavaScript Array.prototype.pop result
on the non-empty lists produced by split). -/
def lastSeg (segs : List (List Char)) : List Char := segs.getLastD []

/-- Characters after the last dot of the list; the whole list when no dot
occurs (JavaScript url.split(".").pop()). -/
def afterLastDot (l : List Char) : List Char :=
  (l.reverse.takeWhile (fun c => c != '.')).reverse

/-- Extension of a bare filename, dot included: model of node
path.parse(name).ext / path.extname on a name without slashes, including
the dotfile rule (a leading dot alone yields no extension). -/
def extOfName (n : List Char) : List Char :=
  let tail := n.reverse.takeWhile (fun c => c != '.')
  if tail.length + 1 < n.length then '.' :: tail.reverse else []

/-- Name part of a bare filename, extension removed: model of node
path.parse(name).name. -/
def nameOfFile (n : List Char) : List Char :=
  n.take (n.length - (extOfName n).length)

/-- Slash-separated segments of a relative path. -/
def pathSegments (p : String) : List (List Char) := splitOnChar '/' p.data

/-- Model of node path.extname on a slash-separated path. -/
def pathExtname (p : String) : String := ⟨extOfName (lastSeg (pathSegments p))⟩

/-- Model of node path.dirname on the relative paths the rewriter feeds it. -/
def pathDirname (p : String) : String :=
  match (pathSegments p).dropLast with
  | [] => "."
  | segs => ⟨joinChar '/' segs⟩

/-- Model of node path.join for one relative component under a root. -/
def pathJoin (a b : String) : String := a ++ "/" ++ b

/-- Model of node path.relative(base, p) for the one shape the downloader
uses it with, namely p = base + "/" + rel. -/
def pathRelative (base p : String) : String := strDropN p (base.length + 1)

/-- Shared tail computation of relative-path math: descend out of the
remaining source directories, then into the target segments. -/
def relAux : List (List Char) → List (List Char) → List (List Char)
  | [], t => t
  | f :: fs, [] => (f :: fs).map (fun _ => ['.', '.'])
  | f :: fs, t :: ts =>
    if f == t then relAux fs ts
    else (f :: fs).map (fun _ => ['.', '.']) ++ t :: ts

/-- UrlRewriter.calculateRelativePath: node path.relative from the directory
of fromPath to toPath (model of the posix path math on the normalized
relative paths the pipeline produces, forward slashes throughout). -/
def calculateRelativePath (fromPath toPath : String) : String :=
  ⟨joinChar '/' (relAux (pathSegments fromPath).dropLast (pathSegments toPath))⟩

/-- A parsed absolute URL: executable model of the WHATWG URL constructor
restricted to scheme://host[:port][/path][?query][#fragment] inputs, the
shape every absolute URL handled by this pipeline has.  search keeps its
leading question mark and is empty when the query is absent or empty,
matching the url.search accessor. -/
structure UrlObj where
  scheme : String
  hostname : String
  port : String
  pathname : String
  search : String
deriving DecidableEq, Repr

/-- Model of new URL(s) for absolute URLs: some parsed object, or none when
the constructor would throw (no scheme, or an empty host). -/
def parseUrl (s : String) : Option UrlObj :=
  let cs := s.data
  let scheme := cs.takeWhile (fun c => c != ':')
  if scheme.isEmpty || !scheme.all Char.isAlpha then none
  else
    match cs.drop scheme.length with
    | ':' :: '/' :: '/' :: rest2 =>
      let hostport := rest2.takeWhile (fun c => c != '/' && c != '?' && c != '#')
      if hostport.isEmpty then none
      else
        let hostname := hostport.takeWhile (fun c => c != ':')
        let port := hostport.drop (hostname.length + 1)
        let rest3 := rest2.drop hostport.length
        let pathname :=
          match rest3 with
          | '/' :: _ => rest3.takeWhile (fun c => c != '?' && c != '#')
          | _ => ['/']
        let rest4 :=
          match rest3 with
          | '/' :: _ => rest3.dropWhile (fun c => c != '?' && c != '#')
          | _ => rest3
        let search :=
          match rest4 with
          | '?' :: qs =>
            let q := qs.takeWhile (fun c => c != '#')
            if q.isEmpty then [] else '?' :: q
          | _ => []
        some { scheme := ⟨scheme⟩, hostname := ⟨hostname⟩, port := ⟨port⟩,
               pathname := ⟨pathname⟩, search := ⟨search⟩ }
    | _ => none

/-- Serialized form of a parsed URL (model of url.href). -/
def UrlObj.href (o : UrlObj) : String :=
  o.scheme ++ "://" ++ o.hostname ++
    (if o.port.isEmpty then "" else ":" ++ o.port) ++ o.pathname ++ o.search

/-- Directory part of a pathname, trailing slash kept. -/
def dirOfPathname (p : String) : String :=
  ⟨(p.data.reverse.dropWhile (fun c => c != '/')).reverse⟩

/-- Model of new URL(rel, base).href: an absolute rel is normalized on its
own; otherwise base must parse and rel is joined against it (root-relative,
protocol-relative, or directory-relative); none models the constructor
throwing, which happens exactly when neither side yields an absolute URL. -/
def urlResolveJs (rel base : String) : Option String :=
  match parseUrl rel with
  | some o => some o.href
  | none =>
    match parseUrl base with
    | none => none
    | some b =>
      let origin := b.scheme ++ "://" ++ b.hostname ++
        (if b.port.isEmpty then "" else ":" ++ b.port)
      if strStartsWith rel "//" then some (b.scheme ++ ":" ++ rel)
      else if strStartsWith rel "/" then some (origin ++ rel)
      else some (origin ++ dirOfPathname b.pathname ++ rel)

/-- AssetExtractor.resolveUrl: try the URL constructor and fall back to the
candidate string unchanged when construction fails. -/
def resolveUrl (baseUrl relativeUrl : String) : String :=
  match urlResolveJs relativeUrl baseUrl with
  | some s => s
  | none => relativeUrl

/-- CrawlerService.PageData: one captured page. -/
structure PageData where
  url : String
  html : String
  title : String
  links : List String
  path : String
deriving DecidableEq, Repr

/-- CrawlerService.generatePagePath: relative output path of a page,
mirroring the URL path; index.html for the root, index.html appended after
a trailing slash, .html appended when the last segment has no dot.  none
models the URL constructor throwing on the input. -/
def generatePagePath (url : String) : Option String :=
  match parseUrl url with
  | none => none
  | some o =>
    let p := o.pathname
    if p == "/" || p == "" then some "index.html"
    else
      let p1 := if strStartsWith p "/" then strDropN p 1 else p
      let p2 := if strEndsWith p1 "/" then p1 ++ "index.html" else p1
      let p3 :=
        if !(strContains p2 ".") || !(listHasSub ['.'] (lastSeg (pathSegments p2)))
        then p2 ++ ".html" else p2
      some p3

/-- CrawlerService.isSameDomain: hostname equality of the two URLs; false
when either fails to parse (the catch branch). -/
def isSameDomain (url1 url2 : String) : Bool :=
  match parseUrl url1, parseUrl url2 with
  | some a, some b => a.hostname == b.hostname
  | _, _ => false

/-- CrawlerService.crawlPage: the browser fetch is an oracle returning the
rendered html, the title and the resolved anchor hrefs; none models a
navigation failure or timeout (the method throwing). -/
def crawlPageM (fetch : String → Option (String × String × List String))
    (url : String) : Option PageData :=
  match fetch url, generatePagePath url with
  | some (html, title, links), some p => some ⟨url, html, title, links, p⟩
  | _, _ => none

/-- CrawlerService.crawlWebsite main loop: FIFO queue of (url, depth)
pairs, a visited set, and the captured pages, translated to a fuel-indexed
recursion (the source loop terminates because pushes only happen on
capture and captures are bounded; every theorem below holds for all fuel). -/
def crawlLoop (fetch : String → Option (String × String × List String))
    (startUrl : String) (maxDepth maxPages : Nat) :
    Nat → List (String × Nat) → List String → List PageData → List PageData
  | 0, _, _, pages => pages
  | fuel + 1, queue, visited, pages =>
    match queue with
    | [] => pages
    | (url, depth) :: rest =>
      if maxPages ≤ pages.length then pages
      else if visited.contains url || maxDepth < depth then
        crawlLoop fetch startUrl maxDepth maxPages fuel rest visited pages
      else
        match crawlPageM fetch url with
        | none => crawlLoop fetch startUrl maxDepth maxPages fuel rest visited pages
        | some page =>
          let visited2 := visited ++ [url]
          let newItems :=
            if depth < maxDepth then
              (page.links.filter
                (fun l => !(visited2.contains l) && isSameDomain startUrl l)).map
                (fun l => (l, depth + 1))
            else []
          crawlLoop fetch startUrl maxDepth maxPages fuel
            (rest ++ newItems) visited2 (pages ++ [page])

/-- CrawlerService.crawlWebsite: run the loop from the seeded queue. -/
def crawlWebsite (fetch : String → Option (String × String × List String))
    (maxDepth maxPages fuel : Nat) (startUrl : String) : List PageData :=
  crawlLoop fetch startUrl maxDepth maxPages fuel [(startUrl, 0)] [] []

/-- One step of the rolling hash of AssetDownloader.createUrlHash:
hash = ((hash << 5) - hash) + char, coerced back to a signed 32-bit
integer as the JavaScript bitwise-and does. -/
def hashStep (h : Int) (c : Char) : Int :=
  ((31 * h + c.toNat + 2 ^ 31) % 2 ^ 32) - 2 ^ 31

/-- Base-36 digit (model of Number.prototype.toString(36)). -/
def b36Char (n : Nat) : Char :=
  if n < 10 then Char.ofNat (48 + n) else Char.ofNat (87 + n)

/-- Base-36 digit accumulation; the fuel bounds the digit count and 64 is
ample for every 32-bit value the hash produces. -/
def b36Aux : Nat → Nat → List Char → List Char
  | 0, _, acc => acc
  | _ + 1, 0, acc => acc
  | fuel + 1, n + 1, acc => b36Aux fuel ((n + 1) / 36) (b36Char ((n + 1) % 36) :: acc)

/-- Model of Number.prototype.toString(36) on naturals. -/
def natToBase36 (n : Nat) : String :=
  if n == 0 then "0" else ⟨b36Aux 64 n []⟩

/-- AssetDownloader.createUrlHash: fold the rolling hash over the URL,
take the absolute value, render base-36, keep at most six characters. -/
def createUrlHash (url : String) : String :=
  strTake (natToBase36 (url.data.foldl hashStep 0).natAbs) 6

/-- AssetDownloader.getDefaultExtension: keyword sniffing on the whole URL,
in source order, defaulting to a binary extension. -/
def getDefaultExtension (url : String) : String :=
  if strContains url "css" || strContains url "stylesheet" then ".css"
  else if strContains url "js" || strContains url "javascript" then ".js"
  else if strContains url "png" then ".png"
  else if strContains url "jpg" || strContains url "jpeg" then ".jpg"
  else if strContains url "gif" then ".gif"
  else if strContains url "svg" then ".svg"
  else if strContains url "woff" then ".woff"
  else if strContains url "woff2" then ".woff2"
  else if strContains url "ttf" then ".ttf"
  else ".bin"

/-- Archive-root-relative part of
AssetDownloader.generateLocalPathPreservingStructure: strip the leading
slash of the pathname, default the empty path to index, embed a hash of
the full URL into the filename when a query string is present, and ensure
an extension; none models the URL constructor throwing. -/
def generateLocalRel (originalUrl : String) : Option String :=
  match parseUrl originalUrl with
  | none => none
  | some o =>
    let up0 := o.pathname
    let up1 := if strStartsWith up0 "/" then strDropN up0 1 else up0
    let up2 := if up1 == "" then "index" else up1
    let up3 :=
      if o.search == "" then up2
      else
        let queryHash := createUrlHash originalUrl
        let parts := splitOnChar '/' up2.data
        let filename0 := lastSeg parts
        let filename := if filename0.isEmpty then "file".data else filename0
        let nameWithoutExt := nameOfFile filename
        let ext :=
          if (extOfName filename).isEmpty then (getDefaultExtension originalUrl).data
          else extOfName filename
        let newLast := nameWithoutExt ++ '-' :: queryHash.data ++ ext
        (⟨joinChar '/' (parts.dropLast ++ [newLast])⟩ : String)
    let up4 := if pathExtname up3 == "" then up3 ++ getDefaultExtension originalUrl else up3
    some up4

/-- AssetDownloader.generateLocalPathPreservingStructure: the relative
path joined under the archive directory. -/
def generateLocalPathPreservingStructure (originalUrl archiveDir : String) :
    Option String :=
  (generateLocalRel originalUrl).map (fun r => pathJoin archiveDir r)

/-- Asset.type of AssetExtractor. -/
inductive AssetType
  | css | js | image | font | model | other
deriving DecidableEq, Repr

/-- AssetExtractor.Asset record. -/
structure Asset0 where
  url : String
  type : AssetType
  foundOn : String
deriving DecidableEq, Repr

/-- Result of one downloadAssets run: the URL-to-relative-path mapping and
the set of files written under the archive root (the filesystem effect of
fs.writeFile made explicit; writes only ever add paths). -/
structure DlResult where
  mappings : List (String × String)
  files : List String
deriving DecidableEq, Repr

/-- AssetDownloader.downloadAssets loop body: probe the URL (checkUrlExists
as an oracle), compute the preserved-structure local path, download (the
body oracle; none models a thrown fetch error caught by the per-asset
try block), write the file and record the root-relative mapping. -/
def downloadAssetsLoop (probe : String → Bool) (body : String → Option String)
    (archiveDir : String) :
    List Asset0 → List (String × String) → List String → DlResult
  | [], ms, fsW => ⟨ms, fsW⟩
  | a :: rest, ms, fsW =>
    if !(probe a.url) then downloadAssetsLoop probe body archiveDir rest ms fsW
    else
      match generateLocalPathPreservingStructure a.url archiveDir with
      | none => downloadAssetsLoop probe body archiveDir rest ms fsW
      | some localPath =>
        match body a.url with
        | none => downloadAssetsLoop probe body archiveDir rest ms fsW
        | some _ =>
          downloadAssetsLoop probe body archiveDir rest
            (ms ++ [(a.url, pathRelative archiveDir localPath)])
            (fsW ++ [localPath])

/-- AssetDownloader.downloadAssets from the empty mapping and a fresh
archive directory. -/
def downloadAssets (probe : String → Bool) (body : String → Option String)
    (assets : List Asset0) (archiveDir : String) : DlResult :=
  downloadAssetsLoop probe body archiveDir assets [] []

/-- Recognized asset extensions of AssetExtractor.isLikelyRealAsset. -/
def validExts : List String :=
  ["css", "js", "mjs", "json", "png", "jpg", "jpeg", "gif", "svg", "webp",
   "ico", "woff", "woff2", "ttf", "glb", "gltf"]

/-- Known API-path substrings of AssetExtractor.isLikelyRealAsset. -/
def commonEndpoints : List String := ["/spec", "/api/", "/swagger", "/openapi"]

/-- AssetExtractor.isLikelyRealAsset: the plausibility filter applied to
string literals mined from script content. -/
def isLikelyRealAsset (url : String) : Bool :=
  if strContains url "$\x7b" || strContains url "\x7b" || strContains url "%" then false
  else if strContains url "__" || strContains url "\x7b\x7b" then false
  else if url.length < 3 || url.length > 200 then false
  else if strContains url "localhost" || strContains url "127.0.0.1" then false
  else if strContains url "example." || strContains url "test." then false
  else
    let ext : String := ⟨(afterLastDot url.data).map Char.toLower⟩
    validExts.contains ext || commonEndpoints.any (fun e => strContains url e)

/-- Guard of the push in AssetExtractor.parseAssetsFromJavaScript: a regex
capture is recorded as an asset only when non-empty, not a data, blob or
javascript URI, and accepted by the plausibility filter. -/
def jsCandidateAccepted (url : String) : Bool :=
  !(url == "") && !(strStartsWith url "data:") && !(strStartsWith url "blob:") &&
    !(strStartsWith url "javascript:") && isLikelyRealAsset url

/-- Exact-key lookup in the rewriter URL mapping (Map.has and Map.get; the
list keeps the Map insertion order). -/
def lookupExact : List (String × String) → String → Option String
  | [], _ => none
  | (u, p) :: rest, k => if u == k then some p else lookupExact rest k

/-- Fallback scan of UrlRewriter.rewriteHtmlUrls: first mapping entry whose
source URL ends with the root-relative reference, or whose filename equals
the filename of the reference (optionally requiring a marker substring in
the local path), in insertion order. -/
def fallbackScan (ref : String) (needSub : Option String) :
    List (String × String) → Option String
  | [] => none
  | (origUrl, localPath) :: rest =>
    if strStartsWith ref "/" && strEndsWith origUrl ref then some localPath
    else
      let refFile := lastSeg (splitOnChar '/' ref.data)
      let origFile := lastSeg (splitOnChar '/' origUrl.data)
      if !refFile.isEmpty && !origFile.isEmpty && refFile == origFile &&
         (match needSub with | some sub => strContains localPath sub | none => true)
      then some localPath
      else fallbackScan ref needSub rest

/-- Mapped-path search of UrlRewriter.rewriteHtmlUrls: exact match first,
then the fallback scan. -/
def lookupMapped (m : List (String × String)) (ref : String)
    (needSub : Option String) : Option String :=
  match lookupExact m ref with
  | some p => some p
  | none => fallbackScan ref needSub m

/-- Attribute value written for a mapped reference: the local path as is on
pages that carry a base tag (every page other than index.html), else the
relative path from the current page to the asset. -/
def applyMappedPath (mapped currentPagePath : String) : String :=
  if currentPagePath != "index.html" then mapped
  else calculateRelativePath currentPagePath mapped

/-- Stylesheet-link rewrite step of UrlRewriter.rewriteHtmlUrls: look the
href up (filename fallback restricted to css local paths), rewrite on a
hit, remove the element for uncaptured external font services (none), and
leave the href unchanged otherwise. -/
def stylesheetHrefStep (m : List (String × String)) (pagePath href : String) :
    Option String :=
  match lookupMapped m href (some "css/") with
  | some mapped => some (applyMappedPath mapped pagePath)
  | none =>
    if strContains href "fonts.googleapis.com" || strContains href "fonts.gstatic.com"
    then none
    else some href

/-- Reference rewrite step of UrlRewriter.rewriteCssUrls for one url() or
at-import occurrence: exact-mapping hit rewrites to the (directory-)
relative local path, miss leaves the reference unchanged. -/
def cssUrlRefStep (m : List (String × String)) (cssPath : Option String)
    (url : String) : String :=
  match lookupExact m url with
  | some mapped =>
    match cssPath with
    | some cp => calculateRelativePath cp mapped
    | none => mapped
  | none => url

/-- ArchiveMetadata.status values. -/
inductive JobStatus
  | processing | completed | failed
deriving DecidableEq, Repr

/-- ArchiveService.ArchiveMetadata, the fields the versioning and status
logic reads. -/
structure ArchiveMetadata where
  id : String
  url : String
  status : JobStatus
  version : Option Nat
  originalUrl : Option String
deriving DecidableEq, Repr

/-- Version of a record with the source default (a.version || 1). -/
def versionD (a : ArchiveMetadata) : Nat := a.version.getD 1

/-- Stable insertion of an element into a sorted list. -/
def insertSorted {α : Type} (le : α → α → Bool) (a : α) : List α → List α
  | [] => [a]
  | b :: bs => if le a b then a :: b :: bs else b :: insertSorted le a bs

/-- Model of Array.prototype.sort with a comparator: a stable sort keeping
an element before another exactly when the comparator is non-positive. -/
def stableSortJs {α : Type} (le : α → α → Bool) : List α → List α
  | [] => []
  | a :: as => insertSorted le a (stableSortJs le as)

/-- Comparator (b.version || 1) - (a.version || 1) of
ArchiveService.getArchiveVersions, as the before-or-equal relation. -/
def versionLe (a b : ArchiveMetadata) : Bool := versionD b ≤ versionD a

/-- ArchiveService.getArchiveVersions: records sharing the original URL
(or stored URL), sorted by descending version. -/
def getArchiveVersions (archives : List ArchiveMetadata) (url : String) :
    List ArchiveMetadata :=
  stableSortJs versionLe
    (archives.filter (fun a => a.originalUrl == some url || a.url == url))

/-- Math.max over the versions of a non-empty record list (zero floor,
below every real version). -/
def maxVersion (l : List ArchiveMetadata) : Nat :=
  l.foldl (fun acc a => max acc (versionD a)) 0

/-- ArchiveService.createArchive, metadata part: a fresh record in the
processing state whose version is max(existing versions) + 1 on
re-archival and 1 otherwise, appended to the store (Map.set with a fresh
id keeps insertion order). -/
def createArchiveModel (archives : List ArchiveMetadata) (id url : String)
    (isReArchive : Bool) : ArchiveMetadata × List ArchiveMetadata :=
  let version :=
    if isReArchive then
      let ex := getArchiveVersions archives url
      if 0 < ex.length then maxVersion ex + 1 else 1
    else 1
  let m : ArchiveMetadata := ⟨id, url, .processing, some version, some url⟩
  (m, archives ++ [m])

/-- Job record fields touched by ArchiveService.processArchive. -/
structure JobRecord where
  status : JobStatus
  error : Option String
  pageCount : Option Nat
  assetCount : Option Nat
deriving DecidableEq, Repr

/-- Terminal update of ArchiveService.processArchive: completed with counts
on success, failed with the message when an exception escapes a stage. -/
def finishJob (jobRec : JobRecord) (outcome : Except String (Nat × Nat)) :
    JobRecord :=
  match outcome with
  | .ok (pages, assets) =>
    { jobRec with status := .completed, pageCount := some pages,
                  assetCount := some assets }
  | .error e => { jobRec with status := .failed, error := some e }

/-- ArchiveService.processArchive pipeline: crawl, extract (the extractor
catches its own network errors, so the stage is a total function of the
pages), download, then mark the job completed with the counts.  The failed
branch of finishJob is reachable only through an exception escaping a
stage, which none of the translated stages does. -/
def runArchiveJob (fetch : String → Option (String × String × List String))
    (extract : List PageData → List Asset0) (probe : String → Bool)
    (body : String → Option String) (archiveDir seed : String)
    (maxDepth maxPages fuel : Nat) (jobRec : JobRecord) : JobRecord :=
  let pages := crawlWebsite fetch maxDepth maxPages fuel seed
  let assets := extract pages
  let _mappings := downloadAssets probe body assets archiveDir
  finishJob jobRec (.ok (pages.length, assets.length))

/-- Joined prefix of a snoc-ed segment list: the part of a join that
precedes its last segment (empty, or the joined front plus a separator). -/
def joinPre (c : Char) : List (List Char) → List Char
  | [] => []
  | s :: ss => joinChar c (s :: ss) ++ [c]

/-! Helper lemmas about the string primitives. -/

theorem listStartsWith_iff (s pat : List Char) :
    listStartsWith s pat = true ↔ pat <+: s := by
  induction pat generalizing s with
  | nil => simp [listStartsWith]
  | cons b bs ih =>
    cases s with
    | nil => simp [listStartsWith]
    | cons a as =>
      rw [show listStartsWith (a :: as) (b :: bs) = (a == b && listStartsWith as bs) from rfl]
      rw [List.cons_prefix_cons]
      simp only [Bool.and_eq_true, beq_iff_eq, ih]
      constructor
      · rintro ⟨h1, h2⟩; exact ⟨h1.symm, h2⟩
      · rintro ⟨h1, h2⟩; exact ⟨h1.symm, h2⟩

theorem listHasSub_iff (pat s : List Char) :
    listHasSub pat s = true ↔ pat <:+: s := by
  induction s with
  | nil =>
    rw [show listHasSub pat [] = pat.isEmpty from rfl]
    simp [List.isEmpty_iff]
  | cons c rest ih =>
    rw [show listHasSub pat (c :: rest)
          = (listStartsWith (c :: rest) pat || listHasSub pat rest) from rfl]
    simp only [Bool.or_eq_true, listStartsWith_iff, ih, List.infix_cons_iff]

theorem strContains_iff (s pat : String) : strContains s pat = true ↔ pat.data <:+: s.data := by
  simp [strContains, listHasSub_iff]

theorem strEndsWith_iff (s pat : String) : strEndsWith s pat = true ↔ pat.data <:+ s.data := by
  simp [strEndsWith, listStartsWith_iff, List.reverse_prefix]

theorem strStartsWith_iff (s pat : String) : strStartsWith s pat = true ↔ pat.data <+: s.data := by
  simp [strStartsWith, listStartsWith_iff]

theorem pathRelative_pathJoin (dir rel : String) : pathRelative dir (pathJoin dir rel) = rel := by
  apply String.ext
  show ((dir ++ "/" ++ rel).data.drop (dir.length + 1)) = rel.data
  have h1 : (dir ++ "/" ++ rel).data = (dir.data ++ ['/']) ++ rel.data := by
    simp [String.data_append]
  have hlen : dir.length = dir.data.length := rfl
  have h2 : dir.length + 1 = (dir.data ++ ['/']).length := by
    rw [List.length_append, hlen]
    rfl
  rw [h1, h2, List.drop_left]

theorem joinChar_exists_pre (c : Char) :
    ∀ (init : List (List Char)) (x : List Char),
      ∃ pre, joinChar c (init ++ [x]) = pre ++ x
  | [], x => ⟨[], rfl⟩
  | [a], x => ⟨a ++ [c], by simp [joinChar]⟩
  | a :: b :: bs, x => by
    obtain ⟨pre, hp⟩ := joinChar_exists_pre c (b :: bs) x
    refine ⟨a ++ c :: pre, ?_⟩
    have h1 : (a :: b :: bs) ++ [x] = a :: ((b :: bs) ++ [x]) := rfl
    have h2 : joinChar c (a :: ((b :: bs) ++ [x]))
        = a ++ c :: joinChar c ((b :: bs) ++ [x]) := rfl
    rw [h1, h2, hp]
    simp [List.append_assoc]

/-! Claim C2: the crawl never captures more than maxPages pages. -/

theorem crawlLoop_length_le (fetch : String → Option (String × String × List String))
    (seed : String) (md mp : Nat) (fuel : Nat) :
    ∀ (queue : List (String × Nat)) (visited : List String) (pages : List PageData),
      pages.length ≤ mp →
      (crawlLoop fetch seed md mp fuel queue visited pages).length ≤ mp := by
  induction fuel with
  | zero => intro q v p h; simpa [crawlLoop] using h
  | succ n ih =>
    intro queue visited pages h
    rcases queue with _ | ⟨⟨url, depth⟩, rest⟩
    · simpa [crawlLoop] using h
    · simp only [crawlLoop]
      split
      · exact h
      · next hnotfull =>
        split
        · exact ih rest visited pages h
        · split
          · exact ih rest visited pages h
          · apply ih
            have : pages.length < mp := Nat.lt_of_not_le hnotfull
            simp only [List.length_append, List.length_cons, List.length_nil]
            omega

/-- C2.  For every fetch oracle, every limit configuration and every seed,
the list of captured pages returned by crawlWebsite has length at most
maxPages: the loop stops when the queue empties or the captured count
reaches maxPages, whichever comes first. -/
theorem c2_crawl_respects_maxPages
    (fetch : String → Option (String × String × List String))
    (maxDepth maxPages fuel : Nat) (seed : String) :
    (crawlWebsite fetch maxDepth maxPages fuel seed).length ≤ maxPages := by
  unfold crawlWebsite
  exact crawlLoop_length_le fetch seed maxDepth maxPages fuel [(seed, 0)] [] []
    (Nat.zero_le maxPages)

/-! Claim C10: resolveUrl is total with identity fallback. -/

/-- C10.  URL resolution in the asset extractor is total: resolveUrl is a
total function, and whenever absolute-URL construction fails (urlResolveJs
returns none, the embedded image of the constructor throwing) the candidate
string is returned unchanged, so a recorded Asset url may be the original
unresolved string. -/
theorem c10_resolveUrl_fallback (baseUrl relativeUrl : String)
    (h : urlResolveJs relativeUrl baseUrl = none) :
    resolveUrl baseUrl relativeUrl = relativeUrl := by
  unfold resolveUrl
  rw [h]

theorem c10_resolveUrl_fallback_witness :
    urlResolveJs "foo/bar" "notaurl" = none ∧
      resolveUrl "notaurl" "foo/bar" = "foo/bar" :=
  ⟨by decide, c10_resolveUrl_fallback "notaurl" "foo/bar" (by decide)⟩

/-! Claim C5: idempotence of the rewrite step. -/

/-- C5 counterexample.  The HTML stylesheet-link rewrite step is not
idempotent: with two mapping entries whose source URLs share the filename
style.css, the first pass rewrites an exact match to its local path, and a
second pass over that already-correct output remaps it through the
filename fallback to the other entry, changing the reference. -/
theorem c5_filename_fallback_not_idempotent :
    stylesheetHrefStep
        [("https://ex.com/theme1/css/style.css", "theme1/css/style.css"),
         ("https://ex.com/theme2/css/style.css", "theme2/css/style.css")]
        "about.html" "https://ex.com/theme2/css/style.css"
      = some "theme2/css/style.css" ∧
    stylesheetHrefStep
        [("https://ex.com/theme1/css/style.css", "theme1/css/style.css"),
         ("https://ex.com/theme2/css/style.css", "theme2/css/style.css")]
        "about.html" "theme2/css/style.css"
      = some "theme1/css/style.css" ∧
    ("theme1/css/style.css" : String) ≠ "theme2/css/style.css" := by
  refine ⟨by decide, by decide, by decide⟩

/-- C5 amended.  The CSS url()/at-import rewrite step is idempotent on
matched references provided the rewritten reference is not itself a key of
the mapping (as is the case when keys are absolute URLs and rewritten
references are relative paths): applying the step to its own output leaves
it unchanged. -/
theorem c5_css_rewrite_idempotent (m : List (String × String))
    (cssPath : Option String) (u : String)
    (h : lookupExact m (cssUrlRefStep m cssPath u) = none) :
    cssUrlRefStep m cssPath (cssUrlRefStep m cssPath u) = cssUrlRefStep m cssPath u := by
  generalize cssUrlRefStep m cssPath u = r at h ⊢
  unfold cssUrlRefStep
  rw [h]

theorem c5_css_rewrite_idempotent_witness :
    lookupExact [("https://e.com/a.png", "a.png")]
        (cssUrlRefStep [("https://e.com/a.png", "a.png")] none "https://e.com/a.png") = none ∧
    cssUrlRefStep [("https://e.com/a.png", "a.png")] none
        (cssUrlRefStep [("https://e.com/a.png", "a.png")] none "https://e.com/a.png")
      = cssUrlRefStep [("https://e.com/a.png", "a.png")] none "https://e.com/a.png" :=
  ⟨by decide,
   c5_css_rewrite_idempotent [("https://e.com/a.png", "a.png")] none
     "https://e.com/a.png" (by decide)⟩

/-! Claim C4: every mapping entry points at a written file. -/

theorem downloadAssetsLoop_inv (probe : String → Bool) (body : String → Option String)
    (dir : String) :
    ∀ (assets : List Asset0) (ms : List (String × String)) (fsW : List String),
      (∀ u r, (u, r) ∈ ms →
        pathJoin dir r ∈ fsW ∧ probe u = true ∧ (body u).isSome = true) →
      ∀ u r, (u, r) ∈ (downloadAssetsLoop probe body dir assets ms fsW).mappings →
        pathJoin dir r ∈ (downloadAssetsLoop probe body dir assets ms fsW).files ∧
        probe u = true ∧ (body u).isSome = true := by
  intro assets
  induction assets with
  | nil => intro ms fsW hinv u r hmem; exact hinv u r hmem
  | cons a rest ih =>
    intro ms fsW hinv u r
    by_cases hp : probe a.url = true
    · have hp' : (!probe a.url) = false := by simp [hp]
      simp only [downloadAssetsLoop, hp', Bool.false_eq_true, if_false]
      cases hg : generateLocalPathPreservingStructure a.url dir with
      | none =>
        intro hmem
        exact ih ms fsW hinv u r hmem
      | some localPath =>
        cases hb : body a.url with
        | none =>
          intro hmem
          exact ih ms fsW hinv u r hmem
        | some content =>
          intro hmem
          refine ih (ms ++ [(a.url, pathRelative dir localPath)]) (fsW ++ [localPath])
            ?_ u r hmem
          intro u2 r2 hm2
          rcases List.mem_append.mp hm2 with hold | hnew
          · obtain ⟨hf, hpr, hbo⟩ := hinv u2 r2 hold
            exact ⟨List.mem_append_left _ hf, hpr, hbo⟩
          · have hpair : u2 = a.url ∧ r2 = pathRelative dir localPath := by
              simpa using hnew
            obtain ⟨hu2, hr2⟩ := hpair
            subst hu2; subst hr2
            obtain ⟨rel, hrel, hlp⟩ : ∃ rel, generateLocalRel a.url = some rel ∧
                localPath = pathJoin dir rel := by
              unfold generateLocalPathPreservingStructure at hg
              cases hgl : generateLocalRel a.url with
              | none => rw [hgl] at hg; cases hg
              | some rel => rw [hgl] at hg; exact ⟨rel, rfl, by injection hg with h2; exact h2.symm⟩
            have hfile : pathJoin dir (pathRelative dir localPath) = localPath := by
              rw [hlp, pathRelative_pathJoin]
            refine ⟨?_, hp, by rw [hb]; rfl⟩
            rw [hfile]
            exact List.mem_append_right _ (by simp)
    · have hp' : (!probe a.url) = true := by
        simp [Bool.not_eq_true] at hp
        simp [hp]
      simp only [downloadAssetsLoop, hp', if_true]
      intro hmem
      exact ih ms fsW hinv u r hmem

/-- C4.  Every key of the mapping returned by downloadAssets corresponds to
a file written on disk at the mapped path under the archive root, and an
asset whose existence probe fails or whose download throws is excluded from
the mapping. -/
theorem c4_mapping_file_exists (probe : String → Bool) (body : String → Option String)
    (assets : List Asset0) (archiveDir : String) (u r : String)
    (hmem : (u, r) ∈ (downloadAssets probe body assets archiveDir).mappings) :
    pathJoin archiveDir r ∈ (downloadAssets probe body assets archiveDir).files ∧
    probe u = true ∧ (body u).isSome = true := by
  unfold downloadAssets at hmem ⊢
  exact downloadAssetsLoop_inv probe body archiveDir assets [] []
    (by intro u2 r2 h2; cases h2) u r hmem

theorem c4_mapping_file_exists_witness :
    ("https://e.com/a.css", "a.css") ∈
      (downloadAssets (fun _ => true) (fun _ => some "body")
        [⟨"https://e.com/a.css", AssetType.css, "https://e.com/"⟩] "ar").mappings ∧
    (pathJoin "ar" "a.css" ∈
      (downloadAssets (fun _ => true) (fun _ => some "body")
        [⟨"https://e.com/a.css", AssetType.css, "https://e.com/"⟩] "ar").files ∧
    (fun (_ : String) => true) "https://e.com/a.css" = true ∧
    ((fun (_ : String) => some "body") "https://e.com/a.css").isSome = true) :=
  ⟨by decide,
   c4_mapping_file_exists (fun _ => true) (fun _ => some "body")
     [⟨"https://e.com/a.css", AssetType.css, "https://e.com/"⟩] "ar"
     "https://e.com/a.css" "a.css" (by decide)⟩

/-! Claim C6: an unreachable seed does not fail the job. -/

theorem crawlPageM_dead (fetch : String → Option (String × String × List String))
    (url : String) (h : fetch url = none) : crawlPageM fetch url = none := by
  unfold crawlPageM
  rw [h]

theorem crawlWebsite_dead (fetch : String → Option (String × String × List String))
    (md mp fuel : Nat) (seed : String) (h : fetch seed = none) :
    crawlWebsite fetch md mp fuel seed = [] := by
  have hcp := crawlPageM_dead fetch seed h
  unfold crawlWebsite
  cases fuel with
  | zero => rfl
  | succ n =>
    simp only [crawlLoop]
    split
    · rfl
    · split
      · next hcond => simp at hcond
      · rw [hcp]
        cases n <;> simp [crawlLoop]

/-- C6 counterexample.  With a fetch oracle on which the very first page
fetch of the seed fails, the crawl returns no pages, yet the archive job
terminates completed (with zero pages), not failed: the per-page catch in
the crawl loop absorbs the seed failure and processArchive then runs to
its completion branch. -/
theorem c6_dead_seed_completes :
    crawlWebsite (fun _ => none) 5 25 10 "https://example.org/" = [] ∧
    (runArchiveJob (fun _ => none) (fun _ => []) (fun _ => true) (fun _ => none)
        "archives/j1" "https://example.org/" 5 25 10
        ⟨JobStatus.processing, none, none, none⟩).status = JobStatus.completed ∧
    JobStatus.completed ≠ JobStatus.failed := by
  refine ⟨by decide, by decide, by decide⟩

/-- C6 amended.  If the seed URL is entirely unreachable, the failure is
absorbed by the per-page catch inside the crawl loop: the crawl returns an
empty page list and the job terminates in the completed state with a page
count of zero; the failed state is reserved for an exception escaping a
pipeline stage. -/
theorem c6_dead_seed_completed_zero_pages
    (fetch : String → Option (String × String × List String))
    (extract : List PageData → List Asset0) (probe : String → Bool)
    (body : String → Option String) (archiveDir seed : String)
    (maxDepth maxPages fuel : Nat) (jobRec : JobRecord)
    (h : fetch seed = none) :
    (runArchiveJob fetch extract probe body archiveDir seed
        maxDepth maxPages fuel jobRec).status = JobStatus.completed ∧
    (runArchiveJob fetch extract probe body archiveDir seed
        maxDepth maxPages fuel jobRec).pageCount = some 0 := by
  unfold runArchiveJob
  rw [crawlWebsite_dead fetch maxDepth maxPages fuel seed h]
  simp [finishJob]

theorem c6_dead_seed_completed_zero_pages_witness :
    (fun (_ : String) => (none : Option (String × String × List String)))
        "https://example.org/" = none ∧
    ((runArchiveJob (fun _ => none) (fun _ => []) (fun _ => true) (fun _ => none)
        "archives/j1" "https://example.org/" 5 25 10
        ⟨JobStatus.processing, none, none, none⟩).status = JobStatus.completed ∧
    (runArchiveJob (fun _ => none) (fun _ => []) (fun _ => true) (fun _ => none)
        "archives/j1" "https://example.org/" 5 25 10
        ⟨JobStatus.processing, none, none, none⟩).pageCount = some 0) :=
  ⟨rfl,
   c6_dead_seed_completed_zero_pages (fun _ => none) (fun _ => []) (fun _ => true)
     (fun _ => none) "archives/j1" "https://example.org/" 5 25 10
     ⟨JobStatus.processing, none, none, none⟩ rfl⟩

/-! Claim C3: which links the crawl enqueues. -/

theorem crawlPageM_url (fetch : String → Option (String × String × List String))
    (url : String) (page : PageData) (h : crawlPageM fetch url = some page) :
    page.url = url := by
  unfold crawlPageM at h
  split at h
  · injection h with h1
    rw [← h1]
  · cases h

theorem crawlLoop_url_inv (fetch : String → Option (String × String × List String))
    (seed : String) (md mp : Nat) (fuel : Nat) :
    ∀ (queue : List (String × Nat)) (visited : List String) (pages : List PageData),
      (∀ x ∈ queue, x.1 = seed ∨ isSameDomain seed x.1 = true) →
      (∀ pg ∈ pages, pg.url = seed ∨ isSameDomain seed pg.url = true) →
      ∀ pg ∈ crawlLoop fetch seed md mp fuel queue visited pages,
        pg.url = seed ∨ isSameDomain seed pg.url = true := by
  induction fuel with
  | zero =>
    intro q v p _ hp pg hm
    exact hp pg (by simpa [crawlLoop] using hm)
  | succ n ih =>
    intro queue visited pages hq hp pg
    rcases queue with _ | ⟨⟨url, depth⟩, rest⟩
    · intro hm
      exact hp pg (by simpa [crawlLoop] using hm)
    · simp only [crawlLoop]
      split
      · intro hm; exact hp pg hm
      · split
        · exact ih rest visited pages (fun x hx => hq x (List.mem_cons_of_mem _ hx)) hp pg
        · split
          · exact ih rest visited pages (fun x hx => hq x (List.mem_cons_of_mem _ hx)) hp pg
          · rename_i page hcp
            intro hm
            refine ih _ (visited ++ [url]) (pages ++ [page]) ?_ ?_ pg hm
            · intro x hx
              rcases List.mem_append.mp hx with hr | hnew
              · exact hq x (List.mem_cons_of_mem _ hr)
              · by_cases hd : depth < md
                · simp only [hd, if_true] at hnew
                  obtain ⟨l, hl, hxl⟩ := List.mem_map.mp hnew
                  have hcond := (List.mem_filter.mp hl).2
                  simp only [Bool.and_eq_true] at hcond
                  have hdom := hcond.2
                  right
                  rw [← hxl]
                  exact hdom
                · simp [hd] at hnew
            · intro pg2 h2
              rcases List.mem_append.mp h2 with hold | hcur
              · exact hp pg2 hold
              · have : pg2 = page := by simpa using hcur
                rw [this, crawlPageM_url fetch url page hcp]
                exact hq (url, depth) (List.mem_cons_self _ _)

/-- C3 amended.  Every page the crawl captures (equivalently, every URL it
dequeues from an enqueued link) is either the seed itself or has the same
hostname as the seed: isSameDomain compares only url.hostname, so links
are enqueued regardless of a scheme difference. -/
theorem c3_enqueued_same_hostname
    (fetch : String → Option (String × String × List String))
    (maxDepth maxPages fuel : Nat) (seed : String) (pg : PageData)
    (hm : pg ∈ crawlWebsite fetch maxDepth maxPages fuel seed) :
    pg.url = seed ∨ ∃ o1 o2, parseUrl seed = some o1 ∧ parseUrl pg.url = some o2 ∧
      o1.hostname = o2.hostname := by
  have hP := crawlLoop_url_inv fetch seed maxDepth maxPages fuel [(seed, 0)] [] []
    (by
      intro x hx
      have : x = (seed, 0) := by simpa using hx
      rw [this]
      exact Or.inl rfl)
    (by intro pg2 h2; cases h2) pg hm
  rcases hP with h | h
  · exact Or.inl h
  · right
    unfold isSameDomain at h
    split at h
    · rename_i a b heq1 heq2
      exact ⟨a, b, heq1, heq2, by simpa using h⟩
    · cases h

theorem c3_enqueued_same_hostname_witness :
    (⟨"https://example.org/", "", "", [], "index.html"⟩ : PageData) ∈
      crawlWebsite (fun _ => some ("", "", [])) 1 5 10 "https://example.org/" ∧
    ((⟨"https://example.org/", "", "", [], "index.html"⟩ : PageData).url
        = "https://example.org/" ∨
      ∃ o1 o2, parseUrl "https://example.org/" = some o1 ∧
        parseUrl (⟨"https://example.org/", "", "", [], "index.html"⟩ : PageData).url
          = some o2 ∧ o1.hostname = o2.hostname) :=
  ⟨by decide,
   c3_enqueued_same_hostname (fun _ => some ("", "", [])) 1 5 10 "https://example.org/"
     ⟨"https://example.org/", "", "", [], "index.html"⟩ (by decide)⟩

/-- C3 counterexample.  A link that differs from the seed in scheme but not
in host is enqueued and captured: starting from the https seed, the crawl
captures the http link found on it, so the enqueue check does not compare
schemes. -/
theorem c3_scheme_not_checked :
    ((crawlWebsite
        (fun u => if u == "https://example.org/"
            then some ("", "", ["http://example.org/x"])
          else if u == "http://example.org/x" then some ("", "", []) else none)
        1 5 10 "https://example.org/").map PageData.url)
      = ["https://example.org/", "http://example.org/x"] ∧
    (parseUrl "https://example.org/").map UrlObj.scheme = some "https" ∧
    (parseUrl "http://example.org/x").map UrlObj.scheme = some "http" ∧
    ("https" : String) ≠ "http" := by
  refine ⟨by decide, by decide, by decide, by decide⟩

/-! Claim C9: the script-literal plausibility filter. -/

theorem afterLastDot_suffix (l : List Char) : afterLastDot l <:+ l := by
  unfold afterLastDot
  have h : (l.reverse.takeWhile (fun c => c != '.')) <+: l.reverse :=
    List.takeWhile_prefix _
  have h2 := List.reverse_suffix.mpr h
  simpa using h2

/-- C9.  A string literal mined from script content passes the plausibility
filter only if it contains no template-interpolation markers, its length
lies within the closed interval from 3 to 200, it contains no localhost or
example placeholders, and it either ends in a recognized asset extension
(case-insensitively) or contains a known API-path substring. -/
theorem c9_filter_conditions (url : String) (h : isLikelyRealAsset url = true) :
    strContains url "$\x7b" = false ∧ strContains url "\x7b\x7b" = false ∧
    strContains url "%" = false ∧
    3 ≤ url.length ∧ url.length ≤ 200 ∧
    strContains url "localhost" = false ∧ strContains url "127.0.0.1" = false ∧
    strContains url "example." = false ∧
    ((∃ e ∈ validExts, strEndsWith (strToLower url) e = true) ∨
      (∃ s ∈ commonEndpoints, strContains url s = true)) := by
  unfold isLikelyRealAsset at h
  split at h
  · exact absurd h (by simp)
  · rename_i h1
    split at h
    · exact absurd h (by simp)
    · rename_i h2
      split at h
      · exact absurd h (by simp)
      · rename_i h3
        split at h
        · exact absurd h (by simp)
        · rename_i h4
          split at h
          · exact absurd h (by simp)
          · rename_i h5
            simp only [Bool.or_eq_true, not_or, Bool.not_eq_true] at h1 h2 h3 h4 h5
            obtain ⟨⟨hm1, hm2⟩, hm3⟩ := h1
            obtain ⟨hu1, hu2⟩ := h2
            obtain ⟨hl1, hl2⟩ := h4
            obtain ⟨he1, he2⟩ := h5
            refine ⟨hm1, hu2, hm3, ?_, ?_, hl1, hl2, he1, ?_⟩
            · have := h3.1
              simp only [decide_eq_false_iff_not, not_lt] at this
              omega
            · have := h3.2
              simp only [decide_eq_false_iff_not, not_lt] at this
              omega
            · simp only [Bool.or_eq_true] at h
              rcases h with hc | ha
              · left
                refine ⟨⟨(afterLastDot url.data).map Char.toLower⟩, ?_, ?_⟩
                · exact List.elem_iff.mp hc
                · rw [strEndsWith_iff]
                  exact List.IsSuffix.map _ (afterLastDot_suffix url.data)
              · right
                obtain ⟨s, hs, hp⟩ := List.any_eq_true.mp ha
                exact ⟨s, hs, hp⟩

theorem c9_filter_conditions_witness :
    isLikelyRealAsset "https://cdn.site.net/app.css" = true ∧
    (strContains "https://cdn.site.net/app.css" "$\x7b" = false ∧
    strContains "https://cdn.site.net/app.css" "\x7b\x7b" = false ∧
    strContains "https://cdn.site.net/app.css" "%" = false ∧
    3 ≤ ("https://cdn.site.net/app.css" : String).length ∧
    ("https://cdn.site.net/app.css" : String).length ≤ 200 ∧
    strContains "https://cdn.site.net/app.css" "localhost" = false ∧
    strContains "https://cdn.site.net/app.css" "127.0.0.1" = false ∧
    strContains "https://cdn.site.net/app.css" "example." = false ∧
    ((∃ e ∈ validExts,
        strEndsWith (strToLower "https://cdn.site.net/app.css") e = true) ∨
      (∃ s ∈ commonEndpoints,
        strContains "https://cdn.site.net/app.css" s = true))) :=
  ⟨by decide, c9_filter_conditions "https://cdn.site.net/app.css" (by decide)⟩

/-! Claim C8: versioning of repeat archives. -/

/-- C8 counterexample.  Archiving the same URL twice (the second time
through the re-archive path) yields versions 1 and 2, but
getArchiveVersions returns them with version list [2, 1]: the comparator
sorts by descending version, so the claimed ascending order is false. -/
theorem c8_versions_descending :
    ((getArchiveVersions
        (createArchiveModel (createArchiveModel [] "a" "https://e.com" false).2
          "b" "https://e.com" true).2 "https://e.com").map versionD) = [2, 1] ∧
    ¬ List.Sorted (fun x y => x ≤ y) ([2, 1] : List Nat) := by
  refine ⟨by decide, by decide⟩

/-- C8 amended.  When the same URL is archived twice, the second job's
version number equals the first job's version plus one (computed as the
maximum of existing versions plus one), and listing the versions recorded
for that original URL returns both records ordered by descending version
number (the newest first). -/
theorem c8_second_version_succ_desc (url id1 id2 : String) :
    versionD (createArchiveModel (createArchiveModel [] id1 url false).2 id2 url true).1
      = versionD (createArchiveModel [] id1 url false).1 + 1 ∧
    getArchiveVersions
        (createArchiveModel (createArchiveModel [] id1 url false).2 id2 url true).2 url
      = [(createArchiveModel (createArchiveModel [] id1 url false).2 id2 url true).1,
         (createArchiveModel [] id1 url false).1] := by
  simp [createArchiveModel, getArchiveVersions, stableSortJs, insertSorted,
        versionLe, versionD, maxVersion, List.filter]

/-! Claim C1: local-path assignment of the asset materializer. -/

theorem joinChar_consSnoc (c : Char) (x : List Char) :
    ∀ (s : List Char) (ss : List (List Char)),
      joinChar c ((s :: ss) ++ [x]) = joinChar c (s :: ss) ++ (c :: x)
  | s, [] => by simp [joinChar]
  | s, b :: bs => by
    have ih := joinChar_consSnoc c x b bs
    have h1 : (s :: b :: bs) ++ [x] = s :: ((b :: bs) ++ [x]) := rfl
    have h2 : joinChar c (s :: ((b :: bs) ++ [x]))
        = s ++ c :: joinChar c ((b :: bs) ++ [x]) := rfl
    rw [h1, h2, ih]
    show _ = (s ++ c :: joinChar c (b :: bs)) ++ (c :: x)
    simp [List.append_assoc]

theorem joinChar_snocEq (c : Char) (init : List (List Char)) (x : List Char) :
    joinChar c (init ++ [x]) = joinPre c init ++ x := by
  cases init with
  | nil => simp [joinChar, joinPre]
  | cons s ss =>
    rw [joinChar_consSnoc c x s ss]
    simp [joinPre, List.append_assoc]

theorem embed_of_parts (hstr d : String) (parts : List (List Char)) (name ext : List Char) :
    ∃ pre post : String,
      (if pathExtname ⟨joinChar '/' (parts.dropLast ++ [name ++ '-' :: hstr.data ++ ext])⟩ == ""
       then (⟨joinChar '/' (parts.dropLast ++ [name ++ '-' :: hstr.data ++ ext])⟩ : String) ++ d
       else (⟨joinChar '/' (parts.dropLast ++ [name ++ '-' :: hstr.data ++ ext])⟩ : String))
      = pre ++ "-" ++ hstr ++ post := by
  have hdata : (⟨joinChar '/' (parts.dropLast ++ [name ++ '-' :: hstr.data ++ ext])⟩ : String)
      = ⟨joinPre '/' parts.dropLast ++ name⟩ ++ "-" ++ hstr ++ ⟨ext⟩ := by
    apply String.ext
    show joinChar '/' (parts.dropLast ++ [name ++ '-' :: hstr.data ++ ext]) = _
    rw [joinChar_snocEq]
    simp [String.data_append, List.append_assoc]
  split
  · refine ⟨⟨joinPre '/' parts.dropLast ++ name⟩, ⟨ext⟩ ++ d, ?_⟩
    rw [hdata, String.append_assoc]
  · exact ⟨⟨joinPre '/' parts.dropLast ++ name⟩, ⟨ext⟩, hdata⟩

/-- C1 counterexample.  Two distinct absolute asset URLs (same path on two
different hosts) are assigned the same local path: the hostname is not part
of the preserved structure and no hash is embedded without a query string,
so distinct keys collide and the claimed injectivity is false. -/
theorem c1_localPath_collision :
    generateLocalRel "https://a.example/style.css" = some "style.css" ∧
    generateLocalRel "https://b.example/style.css" = some "style.css" ∧
    ("https://a.example/style.css" : String) ≠ "https://b.example/style.css" := by
  refine ⟨by decide, by decide, by decide⟩

/-- C1 amended.  The short deterministic hash of the full source URL is
embedded into the filename exactly in the query-string case: whenever the
parsed URL has a non-empty search component, the assigned local path has
the form pre-hash(url)post.  This does not make the assignment injective:
distinct URLs that share a pathname and have no query string receive the
same local path. -/
theorem c1_queryHash_embedded (url : String) (o : UrlObj)
    (hp : parseUrl url = some o) (hs : (o.search == "") = false) :
    ∃ pre post : String,
      generateLocalRel url = some (pre ++ "-" ++ createUrlHash url ++ post) := by
  unfold generateLocalRel
  rw [hp]
  simp only [hs, Bool.false_eq_true, if_false]
  refine Exists.imp (fun pre => Exists.imp (fun post h => congrArg some h))
    (embed_of_parts _ _ _ _ _)

theorem c1_queryHash_embedded_witness :
    parseUrl "https://e.com/app.css?v=1"
      = some ⟨"https", "e.com", "", "/app.css", "?v=1"⟩ ∧
    (((⟨"https", "e.com", "", "/app.css", "?v=1"⟩ : UrlObj).search == "") = false) ∧
    (∃ pre post : String,
      generateLocalRel "https://e.com/app.css?v=1"
        = some (pre ++ "-" ++ createUrlHash "https://e.com/app.css?v=1" ++ post)) :=
  ⟨by decide, by decide,
   c1_queryHash_embedded "https://e.com/app.css?v=1"
     ⟨"https", "e.com", "", "/app.css", "?v=1"⟩ (by decide) (by decide)⟩

/-! Claim C7: page output-path assignment. -/

theorem splitOnChar_ne_nil (c : Char) : ∀ l, splitOnChar c l ≠ []
  | [] => by simp [splitOnChar]
  | a :: as => by
    cases h : splitOnChar c as with
    | nil => simp [splitOnChar, h]
    | cons s ss =>
      simp only [splitOnChar, h]
      split <;> simp

theorem splitOnChar_len2 (c : Char) : ∀ l, c ∈ l → 2 ≤ (splitOnChar c l).length
  | [], hm => nomatch hm
  | a :: as, hm => by
    cases h : splitOnChar c as with
    | nil => exact absurd h (splitOnChar_ne_nil c as)
    | cons s ss =>
      by_cases hac : (a == c) = true
      · simp [splitOnChar, h, hac]
      · have hca : c ∈ as := by
          rcases List.mem_cons.mp hm with h1 | h2
          · exfalso
            apply hac
            rw [h1]
            exact beq_self_eq_true a
          · exact h2
        have hlen := splitOnChar_len2 c as hca
        rw [h] at hlen
        simp only [List.length_cons] at hlen
        simp [splitOnChar, h, hac]
        omega

theorem lastSeg_split_append (c : Char) : ∀ (l1 l2 : List Char),
    lastSeg (splitOnChar c (l1 ++ c :: l2)) = lastSeg (splitOnChar c l2)
  | [], l2 => by
    cases h : splitOnChar c l2 with
    | nil => exact absurd h (splitOnChar_ne_nil c l2)
    | cons s ss =>
      simp [splitOnChar, h, lastSeg, List.getLastD_cons]
  | a :: l1, l2 => by
    have ih := lastSeg_split_append c l1 l2
    cases h : splitOnChar c (l1 ++ c :: l2) with
    | nil => exact absurd h (splitOnChar_ne_nil c _)
    | cons s ss =>
      cases ss with
      | nil =>
        have hlen := splitOnChar_len2 c (l1 ++ c :: l2) (by simp)
        rw [h] at hlen
        simp at hlen
      | cons t ts =>
        rw [← ih, h]
        by_cases hac : (a == c) = true
        · have hexp : splitOnChar c ((a :: l1) ++ c :: l2) = [] :: s :: t :: ts := by
            simp only [List.cons_append, splitOnChar, List.append_eq]
            rw [h]
            simp [hac]
          rw [hexp]
          simp [lastSeg, List.getLastD_cons]
        · have hexp : splitOnChar c ((a :: l1) ++ c :: l2) = (a :: s) :: t :: ts := by
            simp only [List.cons_append, splitOnChar, List.append_eq]
            rw [h]
            simp [hac]
          rw [hexp]
          simp [lastSeg, List.getLastD_cons]

theorem parseUrl_pathname (s : String) (o : UrlObj) (h : parseUrl s = some o) :
    ∃ rest, o.pathname.data = '/' :: rest := by
  simp only [parseUrl] at h
  split at h
  · exact absurd h (by simp)
  · split at h
    · split at h
      · exact absurd h (by simp)
      · injection h with h1
        rw [← h1]
        split
        · rename_i x heq3
          refine ⟨List.takeWhile (fun c => c != '?' && c != '#') x, ?_⟩
          rw [heq3]
          simp [List.takeWhile]
        · exact ⟨[], rfl⟩
    · exact absurd h (by simp)

/-- C7 counterexample.  Two distinct URL paths are assigned the same output
path: the no-extension path gets .html appended and therefore collides with
the path that carries the extension explicitly, so the claimed
collision-freeness per URL path is false. -/
theorem c7_pagePath_collision :
    generatePagePath "https://ex.com/about" = some "about.html" ∧
    generatePagePath "https://ex.com/about.html" = some "about.html" ∧
    (parseUrl "https://ex.com/about").map UrlObj.pathname = some "/about" ∧
    (parseUrl "https://ex.com/about.html").map UrlObj.pathname = some "/about.html" ∧
    ("/about" : String) ≠ "/about.html" := by
  refine ⟨by decide, by decide, by decide, by decide, by decide⟩

/-- C7 amended.  Page output-path assignment is a deterministic function of
the page URL that mirrors the URL path: the root path maps to index.html,
a trailing-slash path gets index.html appended, and a path whose last
segment has no extension gets .html appended.  The assignment is not
collision-free: distinct URL paths whose normal forms coincide (such as
/about and /about.html) receive the same output path. -/
theorem c7_pagePath_rules (url : String) (o : UrlObj) (hp : parseUrl url = some o) :
    (o.pathname = "/" → generatePagePath url = some "index.html") ∧
    (strEndsWith o.pathname "/" = true → o.pathname ≠ "/" →
      generatePagePath url = some (strDropN o.pathname 1 ++ "index.html")) ∧
    (o.pathname ≠ "/" → strEndsWith o.pathname "/" = false →
      listHasSub ['.'] (lastSeg (pathSegments (strDropN o.pathname 1))) = false →
      generatePagePath url = some (strDropN o.pathname 1 ++ ".html")) := by
  obtain ⟨rest, hrest⟩ := parseUrl_pathname url o hp
  have hb2 : (o.pathname == "") = false := by
    apply beq_eq_false_iff_ne.mpr
    intro hcontra
    rw [hcontra] at hrest
    exact List.noConfusion hrest
  have hstart : strStartsWith o.pathname "/" = true := by
    rw [strStartsWith_iff, hrest]
    exact ⟨rest, rfl⟩
  have hp1 : (strDropN o.pathname 1).data = rest := by
    show o.pathname.data.drop 1 = rest
    rw [hrest]
    rfl
  refine ⟨?_, ?_, ?_⟩
  · intro h1
    unfold generatePagePath
    rw [hp]
    simp [h1]
  · intro hslash hne
    unfold generatePagePath
    rw [hp]
    have hb1 : (o.pathname == "/") = false := beq_eq_false_iff_ne.mpr hne
    have hsuffix : ['/'] <:+ '/' :: rest := by
      have h2 := (strEndsWith_iff o.pathname "/").mp hslash
      rw [hrest] at h2
      exact h2
    have hrs : ∃ r1, rest = r1 ++ ['/'] := by
      rcases List.suffix_cons_iff.mp hsuffix with h' | h'
      · exfalso
        apply hne
        apply String.ext
        injection h' with _ h2
        rw [hrest, ← h2]
      · rcases h' with ⟨r1, hr1⟩
        exact ⟨r1, hr1.symm⟩
    obtain ⟨r1, hr1⟩ := hrs
    have hend1 : strEndsWith (strDropN o.pathname 1) "/" = true := by
      rw [strEndsWith_iff, hp1, hr1]
      exact ⟨r1, rfl⟩
    have hlast : lastSeg (pathSegments (strDropN o.pathname 1 ++ "index.html"))
        = "index.html".data := by
      unfold pathSegments
      rw [String.data_append, hp1, hr1, List.append_assoc]
      rw [show ((['/'] : List Char) ++ "index.html".data)
            = '/' :: "index.html".data from rfl]
      rw [lastSeg_split_append]
      decide
    have hcontains : strContains (strDropN o.pathname 1 ++ "index.html") "." = true := by
      rw [strContains_iff, String.data_append]
      have hinf : (".".data : List Char) <:+: "index.html".data := by decide
      exact hinf.trans (List.suffix_append _ _).isInfix
    have hhas : listHasSub ['.']
        (lastSeg (pathSegments (strDropN o.pathname 1 ++ "index.html"))) = true := by
      rw [hlast]
      decide
    simp [hb1, hb2, hstart, hend1, hcontains, hhas]
  · intro hne hnoslash hnodot
    unfold generatePagePath
    rw [hp]
    have hb1 : (o.pathname == "/") = false := beq_eq_false_iff_ne.mpr hne
    have hend0 : strEndsWith (strDropN o.pathname 1) "/" = false := by
      cases hcase : strEndsWith (strDropN o.pathname 1) "/" with
      | false => rfl
      | true =>
        exfalso
        have h2 := (strEndsWith_iff _ _).mp hcase
        rw [hp1] at h2
        have h3 : ("/".data : List Char) <:+ '/' :: rest :=
          h2.trans (List.suffix_cons '/' rest)
        have h4 : strEndsWith o.pathname "/" = true := by
          rw [strEndsWith_iff, hrest]
          exact h3
        rw [h4] at hnoslash
        exact Bool.noConfusion hnoslash
    have hcond : (!(strContains (strDropN o.pathname 1) ".") ||
        !(listHasSub ['.'] (lastSeg (pathSegments (strDropN o.pathname 1))))) = true := by
      rw [hnodot]
      simp
    simp [hb1, hb2, hstart, hend0, hcond]

theorem c7_pagePath_rules_witness :
    parseUrl "https://example.org/docs/"
      = some ⟨"https", "example.org", "", "/docs/", ""⟩ ∧
    (((⟨"https", "example.org", "", "/docs/", ""⟩ : UrlObj).pathname = "/" →
        generatePagePath "https://example.org/docs/" = some "index.html") ∧
    (strEndsWith (⟨"https", "example.org", "", "/docs/", ""⟩ : UrlObj).pathname "/" = true →
      (⟨"https", "example.org", "", "/docs/", ""⟩ : UrlObj).pathname ≠ "/" →
      generatePagePath "https://example.org/docs/"
        = some (strDropN (⟨"https", "example.org", "", "/docs/", ""⟩ : UrlObj).pathname 1
            ++ "index.html")) ∧
    ((⟨"https", "example.org", "", "/docs/", ""⟩ : UrlObj).pathname ≠ "/" →
      strEndsWith (⟨"https", "example.org", "", "/docs/", ""⟩ : UrlObj).pathname "/" = false →
      listHasSub ['.'] (lastSeg (pathSegments
        (strDropN (⟨"https", "example.org", "", "/docs/", ""⟩ : UrlObj).pathname 1))) = false →
      generatePagePath "https://example.org/docs/"
        = some (strDropN (⟨"https", "example.org", "", "/docs/", ""⟩ : UrlObj).pathname 1
            ++ ".html"))) :=
  ⟨by decide,
   c7_pagePath_rules "https://example.org/docs/"
     ⟨"https", "example.org", "", "/docs/", ""⟩ (by decide)⟩
